import Mathlib

/-!
Verification development for the YASMI hierarchical state machine framework
(`yasmi.py`).  The framework's core operations are shallowly embedded as
executable Lean functions: the state node (`StateD`), the driver's active-state
stack, the transition protocol (`transition`), composite states
(`Comp`) with their history bookkeeping, concurrent composites (`ConcComp`),
and the event primitives (`Event`, `EventWithValue`).
Python exceptions (AssertionError, IndexError) are modelled by the `Except`
monad with the abstract error names used by the specification.
-/

namespace Yasmi

/-- Classification of a state node, mirroring the Python class of the object:
`simple` for plain `State` subclasses, `composite` for
`CompositeState`/`ConcurrentCompositeState` subclasses, and one constructor
per pseudo-state class (`_InitialState`, `_FinalState`, `_HistoryState`,
`_ConcurrentHistoryState`). -/
inductive SKind where
  | simple
  | composite
  | initial
  | final
  | history
  | concHistory
deriving DecidableEq, Repr

/-- A state node as seen by the transition protocol: its name (`str(self)`),
its class kind, and its `_super_state` link abstracted to what the protocol
reads from it — `none` when `_super_state is None`, `some b` when a super
state exists with `b = isinstance(self._super_state, ConcurrentCompositeState)`. -/
structure StateD where
  name : String
  kind : SKind
  superState : Option Bool
deriving DecidableEq, Repr

/-- The Python check `isinstance(s, (_InitialState, _FinalState, _BaseHistoryState))`:
both history variants derive from `_BaseHistoryState`. -/
def isPseudo (s : StateD) : Bool :=
  match s.kind with
  | SKind.initial => true
  | SKind.final => true
  | SKind.history => true
  | SKind.concHistory => true
  | SKind.simple => false
  | SKind.composite => false

/-- Observable trace events: user hooks (`entry_actions`, `do_actions`,
`exit_actions`) of a named state, and a supplied transition action. -/
inductive Ev where
  | entryA (name : String)
  | doA (name : String)
  | exitA (name : String)
  | act (label : String)
deriving DecidableEq, Repr

abbrev Trace := List Ev

/-- One element of the driver's `active_states` list: either a single state
or a set-frame of concurrent-region members (the Python `set` is modelled as
a duplicate-free list). -/
inductive StackElem where
  | single (s : StateD)
  | frame (ss : List StateD)
deriving DecidableEq, Repr

/-- The active-state stack; the head is the top (the end of the Python list). -/
abbrev Stack := List StackElem

/-- Errors: `stackInvariantViolated` stands for the AssertionError (or the
IndexError on an empty stack) raised by the stack-position asserts,
`superStateMissing` for the `assert self._super_state is not None`,
`assertionFailed` for the asserts in `_handle_history` and the value getter,
`indexError` for out-of-range list indexing, and `configurationError` for the
construction-time error named by the specification. -/
inductive Err where
  | stackInvariantViolated
  | superStateMissing
  | assertionFailed
  | indexError
  | configurationError
deriving DecidableEq, Repr

/-- `State.activate`: push the state onto the active-state stack. -/
def activate (s : StateD) (stk : Stack) : Stack :=
  StackElem.single s :: stk

/-- Set insertion for a frame (Python `set.add`). -/
def insertS (s : StateD) (ss : List StateD) : List StateD :=
  if s ∈ ss then ss else s :: ss

/-- `State.activate_concurrent_state`: if the stack top is not a set-frame,
push a fresh one; insert the state into the top frame.  On an empty stack the
Python code's `active_states[-1]` raises IndexError. -/
def activateConcurrentState (s : StateD) (stk : Stack) : Except Err Stack :=
  match stk with
  | [] => Except.error Err.indexError
  | StackElem.frame ss :: rest => Except.ok (StackElem.frame (insertS s ss) :: rest)
  | e :: rest => Except.ok (StackElem.frame [s] :: (e :: rest))

/-- `State.exit`: a total no-op for pseudo-states; otherwise run
`exit_actions`, check the super-state link, then remove the state from the
stack — from the top set-frame when the super state is a concurrent
composite (popping the frame when it empties), from the top position
otherwise.  A state not at its required position raises
`stackInvariantViolated`. -/
def StateD.exit (s : StateD) (stk : Stack) (tr : Trace) :
    Except Err (Stack × Trace) :=
  if isPseudo s then Except.ok (stk, tr)
  else
    let tr1 := tr ++ [Ev.exitA s.name]
    match s.superState with
    | none => Except.error Err.superStateMissing
    | some true =>
      match stk with
      | StackElem.frame ss :: rest =>
        if s ∈ ss then
          let remaining := ss.erase s
          Except.ok
            ((if remaining.isEmpty then rest else StackElem.frame remaining :: rest), tr1)
        else Except.error Err.stackInvariantViolated
      | _ => Except.error Err.stackInvariantViolated
    | some false =>
      match stk with
      | StackElem.single t :: rest =>
        if t = s then Except.ok (rest, tr1)
        else Except.error Err.stackInvariantViolated
      | _ => Except.error Err.stackInvariantViolated

/-- The trace produced by a successful `State.exit` of `s`. -/
def exitTr (s : StateD) : Trace :=
  if isPseudo s then [] else [Ev.exitA s.name]

/-- The trace produced by the entry phase of `State.transition` for target
`t`: `entry()` runs only when the target is not a pseudo-state. -/
def entryTr (t : StateD) : Trace :=
  if isPseudo t then [] else [Ev.entryA t.name]

/-- The activation phase of `State.transition`: nothing for a `Final` target;
otherwise concurrent activation when the SOURCE state's super state is a
concurrent composite, plain push otherwise. -/
def activateStep (source target : StateD) (stk : Stack) : Except Err Stack :=
  if target.kind = SKind.final then Except.ok stk
  else if source.superState = some true then activateConcurrentState target stk
  else Except.ok (activate target stk)

/-- `State.transition(new_state, *actions)`: exit the source, run the
transition actions in order, run the target's `entry()` unless the target is
a pseudo-state, activate the target unless it is `Final`, and return the
target. -/
def transition (s target : StateD) (actions : List String) (stk : Stack)
    (tr : Trace) : Except Err (StateD × Stack × Trace) := do
  let (stk1, tr1) ← s.exit stk tr
  let tr2 := tr1 ++ actions.map Ev.act
  let tr3 := tr2 ++ entryTr target
  let stk2 ← activateStep s target stk1
  Except.ok (target, stk2, tr3)

/-- The machine-level mutable context read and written by composite
operations: the driver's `active_states` stack and the `_tick_event` flag. -/
structure Machine where
  activeStates : Stack
  tick : Bool
deriving DecidableEq, Repr

/-- A `_HistoryState`: its own state node and the `state_to_return_to` slot. -/
structure HistoryState where
  node : StateD
  stateToReturnTo : Option StateD
deriving DecidableEq, Repr

/-- First-order representation of a registered transition function body:
either a guard-free `_transition_to(target, *actions)`, a call to
`_handle_history()`, or a body that fires no transition this tick. -/
inductive TFRep where
  | toTarget (target : StateD) (actions : List String)
  | handleHist
  | noop
deriving DecidableEq, Repr

/-- Lookup in a `_transitions_per_state` dictionary (`dict.get`). -/
def lookupTable (tbl : List (StateD × TFRep)) (s : StateD) : Option TFRep :=
  (tbl.find? (fun p => p.1 = s)).map (fun p => p.2)

/-- A plain `CompositeState`: its own state node, its `_initial` and `_final`
pseudo-children, the optional `_history` node, the current child `_state`,
and its `_transitions_per_state` table. -/
structure Comp where
  selfS : StateD
  initialS : StateD
  finalS : StateD
  history : Option HistoryState
  state : StateD
  transitions : List (StateD × TFRep)
deriving DecidableEq, Repr

/-- `CompositeState.__init__`: creates `_InitialState(self)` and
`_FinalState(self)` (their super state is this plain composite, hence not
concurrent), a `_HistoryState(self)` when `has_history`, and starts with
`_state = _initial` and an empty transitions table.  `superState` is the
composite's own `_super_state` abstraction.  The constructor performs no
validation. -/
def mkCompositeState (name : String) (superState : Option Bool)
    (hasHistory : Bool) : Comp :=
  { selfS := ⟨name, SKind.composite, superState⟩
    initialS := ⟨name ++ "_initial", SKind.initial, some false⟩
    finalS := ⟨name ++ "_final", SKind.final, some false⟩
    history :=
      if hasHistory then some ⟨⟨name ++ "_history", SKind.history, some false⟩, none⟩
      else none
    state := ⟨name ++ "_initial", SKind.initial, some false⟩
    transitions := [] }

/-- Modelled from the spec: a validating constructor following the
specification's words, stated only for comparison with `mkCompositeState`
(the source constructor, which performs no such check).  The spec says a
composite whose transition table lacks an entry for `Initial` must fail fast
at machine-construction time with ConfigurationError. -/
def mkCompositeStateSpec (name : String) (superState : Option Bool)
    (hasHistory : Bool) (tbl : List (StateD × TFRep)) : Except Err Comp :=
  let c := { mkCompositeState name superState hasHistory with transitions := tbl }
  if (lookupTable tbl c.initialS).isSome then Except.ok c
  else Except.error Err.configurationError

/-- `CompositeState._transition_to(new_state, *actions)`: delegate to the
current child's `transition`, store the returned state as the new current
child, and when the new current child is a `_FinalState` instance trigger the
machine's tick event. -/
def Comp.transitionTo (c : Comp) (target : StateD) (actions : List String)
    (m : Machine) (tr : Trace) : Except Err (Comp × Machine × Trace) := do
  let (res, stk, tr1) ← transition c.state target actions m.activeStates tr
  let c1 := { c with state := res }
  if res.kind = SKind.final then
    Except.ok (c1, { activeStates := stk, tick := true }, tr1)
  else
    Except.ok (c1, { m with activeStates := stk }, tr1)

/-- `CompositeState._handle_history()`: assert `_history` exists and holds a
remembered state, transition to it (no transition actions), then clear the
remembered slot. -/
def Comp.handleHistory (c : Comp) (m : Machine) (tr : Trace) :
    Except Err (Comp × Machine × Trace) :=
  match c.history with
  | none => Except.error Err.assertionFailed
  | some h =>
    match h.stateToReturnTo with
    | none => Except.error Err.assertionFailed
    | some target => do
      let (c1, m1, tr1) ← c.transitionTo target [] m tr
      Except.ok ({ c1 with history := some ⟨h.node, none⟩ }, m1, tr1)

/-- `CompositeState.exit()`: exit the current child first, then — when a
history node exists and the current child is not `_final` — remember the
current child in the history slot and make the history node current,
otherwise reset the current child to `_initial`; finally run the inherited
`State.exit` on the composite itself.  The current-child exit is taken at
the `State.exit` level (a composite child would cascade further; the claims
proved below instantiate it with simple or pseudo children). -/
def Comp.exit (c : Comp) (m : Machine) (tr : Trace) :
    Except Err (Comp × Machine × Trace) := do
  let (stk1, tr1) ← c.state.exit m.activeStates tr
  let c1 :=
    match c.history with
    | some h =>
      if c.state ≠ c.finalS then
        { c with history := some ⟨h.node, some c.state⟩, state := h.node }
      else { c with state := c.initialS }
    | none => { c with state := c.initialS }
  let (stk2, tr2) ← c.selfS.exit stk1 tr1
  Except.ok (c1, { m with activeStates := stk2 }, tr2)

/-- `CompositeState.is_at_final_state()`. -/
def Comp.isAtFinalState (c : Comp) : Bool :=
  c.state = c.finalS

/-- `CompositeState._transitions()`: look the current child up in the
transitions table; a missing entry is a no-op, otherwise run the registered
body. -/
def Comp.transitionsStep (c : Comp) (m : Machine) (tr : Trace) :
    Except Err (Comp × Machine × Trace) :=
  match lookupTable c.transitions c.state with
  | none => Except.ok (c, m, tr)
  | some (TFRep.toTarget t acts) => c.transitionTo t acts m tr
  | some TFRep.handleHist => c.handleHistory m tr
  | some TFRep.noop => Except.ok (c, m, tr)

/-- A `_ConcurrentHistoryState`: its node and the `states_to_return_to`
vector, one optional slot per region. -/
structure ConcHistoryState where
  node : StateD
  statesToReturnTo : List (Option StateD)
deriving DecidableEq, Repr

/-- A `ConcurrentCompositeState`: its own node, `_initial`/`_final`
pseudo-children (whose super state IS a concurrent composite), the optional
`_history`, the `_states` vector of current children, and the transitions
table. -/
structure ConcComp where
  selfS : StateD
  initialS : StateD
  finalS : StateD
  history : Option ConcHistoryState
  states : List StateD
  transitions : List (StateD × TFRep)
deriving DecidableEq, Repr

/-- `ConcurrentCompositeState.__init__(concurrent_state_count, ...)`: builds
the pseudo-children, a `_ConcurrentHistoryState` with
`[None] * concurrent_state_count` when `has_history`, and
`_states = [self._initial] * concurrent_state_count`.  The constructor
performs no validation of the region count. -/
def mkConcurrentCompositeState (name : String) (concurrentStateCount : Nat)
    (superState : Option Bool) (hasHistory : Bool) : ConcComp :=
  let ini : StateD := ⟨name ++ "_initial", SKind.initial, some true⟩
  { selfS := ⟨name, SKind.composite, superState⟩
    initialS := ini
    finalS := ⟨name ++ "_final", SKind.final, some true⟩
    history :=
      if hasHistory then
        some ⟨⟨name ++ "_history", SKind.concHistory, some true⟩,
              List.replicate concurrentStateCount none⟩
      else none
    states := List.replicate concurrentStateCount ini
    transitions := [] }

/-- Modelled from the spec: a validating constructor following the
specification's words, stated only for comparison with
`mkConcurrentCompositeState` (the source constructor, which performs no such
check).  The spec says a concurrent composite constructed with `N < 2`
regions must fail with ConfigurationError. -/
def mkConcurrentCompositeStateSpec (name : String) (concurrentStateCount : Nat)
    (superState : Option Bool) (hasHistory : Bool) : Except Err ConcComp :=
  if concurrentStateCount < 2 then Except.error Err.configurationError
  else Except.ok (mkConcurrentCompositeState name concurrentStateCount superState hasHistory)

/-- `ConcurrentCompositeState._transition_to(new_state, state_index, *actions)`:
run the indexed region's current child's `transition` and store the result
back into that slot.  Unlike the plain composite, no tick is triggered. -/
def ConcComp.transitionTo (c : ConcComp) (target : StateD) (stateIndex : Nat)
    (actions : List String) (m : Machine) (tr : Trace) :
    Except Err (ConcComp × Machine × Trace) :=
  match c.states.get? stateIndex with
  | none => Except.error Err.indexError
  | some cur => do
    let (res, stk, tr1) ← transition cur target actions m.activeStates tr
    Except.ok ({ c with states := c.states.set stateIndex res },
               { m with activeStates := stk }, tr1)

/-- `ConcurrentCompositeState.is_at_final_state()`: all regions' current
children equal `_final`. -/
def ConcComp.isAtFinalState (c : ConcComp) : Bool :=
  c.states.all (fun s => s = c.finalS)

/-- An `Event`: the internal boolean flag of the wrapped asyncio event. -/
structure Event where
  flag : Bool
deriving DecidableEq, Repr

/-- `Event.__call__()` (poll): if the flag is set, clear it and return true,
else return false. -/
def Event.poll (e : Event) : Bool × Event :=
  if e.flag then (true, { e with flag := false }) else (false, e)

/-- `Event.set()`: raise the flag and trigger the machine's tick event. -/
def Event.set (e : Event) (m : Machine) : Event × Machine :=
  ({ e with flag := true }, { m with tick := true })

/-- `Event.clear()`. -/
def Event.clear (e : Event) : Event :=
  { e with flag := false }

/-- An `EventWithValue`: the flag plus the `_value` slot, which starts as
`None`. -/
structure EventWithValue (α : Type) where
  flag : Bool
  value : Option α
deriving DecidableEq, Repr

/-- `EventWithValue.__init__`: flag unset, `_value = None`. -/
def EventWithValue.init (α : Type) : EventWithValue α :=
  ⟨false, none⟩

/-- Inherited `Event.clear()`: clears only the flag, never the value. -/
def EventWithValue.clear (e : EventWithValue α) : EventWithValue α :=
  { e with flag := false }

/-- Inherited `Event.__call__()` (poll): auto-consume the flag, leaving the
value untouched. -/
def EventWithValue.poll (e : EventWithValue α) : Bool × EventWithValue α :=
  if e.flag then (true, e.clear) else (false, e)

/-- Inherited `Event.set()`: raise only the flag. -/
def EventWithValue.setFlag (e : EventWithValue α) (m : Machine) :
    EventWithValue α × Machine :=
  ({ e with flag := true }, { m with tick := true })

/-- `EventWithValue.set_value(value)`: the Python code asserts the passed
value is not `None` (here enforced by the type `α`), stores it, and calls the
inherited `set()`. -/
def EventWithValue.setValue (e : EventWithValue α) (v : α) (m : Machine) :
    EventWithValue α × Machine :=
  ({ e with value := some v, flag := true }, { m with tick := true })

/-- The `value` property: asserts `_value is not None` and returns it. -/
def EventWithValue.getValue (e : EventWithValue α) : Except Err α :=
  match e.value with
  | none => Except.error Err.assertionFailed
  | some v => Except.ok v

/-- The operations a client can perform on an `EventWithValue` (the machine
side effect of `set`/`set_value` is irrelevant to the stored value and is
dropped here). -/
inductive EvwOp (α : Type) where
  | poll
  | clear
  | setFlag
  | setValue (v : α)
deriving DecidableEq, Repr

/-- Effect of one operation on the event state. -/
def EvwOp.apply (op : EvwOp α) (e : EventWithValue α) : EventWithValue α :=
  match op with
  | EvwOp.poll => (e.poll).2
  | EvwOp.clear => e.clear
  | EvwOp.setFlag => { e with flag := true }
  | EvwOp.setValue v => { e with value := some v, flag := true }

/-- Run a sequence of operations from left to right. -/
def runEvwOps (ops : List (EvwOp α)) (e : EventWithValue α) : EventWithValue α :=
  ops.foldl (fun acc op => op.apply acc) e

/-- All state nodes held by a stack, whether directly or inside a set-frame. -/
def stackStates (stk : Stack) : List StateD :=
  match stk with
  | [] => []
  | StackElem.single s :: rest => s :: stackStates rest
  | StackElem.frame ss :: rest => ss ++ stackStates rest

/-- Example leaf state used by concrete witnesses. -/
def sA : StateD := ⟨"A", SKind.simple, some false⟩

/-- Example leaf state used by concrete witnesses. -/
def sB : StateD := ⟨"B", SKind.simple, some false⟩

/-- Example leaf state (child of an example composite) used by witnesses. -/
def sX : StateD := ⟨"X", SKind.simple, some false⟩

/-- Example Initial pseudo-state used by concrete counterexamples. -/
def pInit : StateD := ⟨"C_initial", SKind.initial, some false⟩

/-- Example composite with history whose current child is `sX`. -/
def cHistEx : Comp :=
  { mkCompositeState "C2" (some false) true with state := sX }

/-- C4: for every concurrent composite with N regions, `is_at_final_state()`
returns true if and only if every one of the N regions' current children
equals the composite's `Final` pseudo-state. -/
theorem concurrent_isAtFinal_iff_all_regions_final (c : ConcComp) :
    c.isAtFinalState = true ↔
      ∀ i, (h : i < c.states.length) → c.states[i] = c.finalS := by
  unfold ConcComp.isAtFinalState
  rw [List.all_eq_true]
  constructor
  · intro hall i hi
    exact of_decide_eq_true (hall _ (List.getElem_mem hi))
  · intro hidx s hs
    obtain ⟨i, hi, rfl⟩ := List.mem_iff_getElem.mp hs
    exact decide_eq_true (hidx i hi)

/-- C4 witness: a concurrent composite whose two regions both sit at `Final`
is at its final state, via the characterisation. -/
theorem concurrent_isAtFinal_iff_all_regions_final_witness :
    ({ mkConcurrentCompositeState "CC" 2 none false with
        states := [⟨"CC_final", SKind.final, some true⟩,
                   ⟨"CC_final", SKind.final, some true⟩] } : ConcComp).isAtFinalState
      = true :=
  (concurrent_isAtFinal_iff_all_regions_final _).mpr
    (by
      intro i hi
      have h2 : i < 2 := hi
      rcases (by omega : i = 0 ∨ i = 1) with h | h <;> subst h <;> rfl)

/-- C5: after `set()`, the first poll returns true and clears the flag; the
post-poll event is a fixed point on which every further poll returns false
(until the next `set()`); and a second `set()` with no intervening poll
changes nothing (idempotent until polled). -/
theorem event_set_poll_once (e : Event) (m : Machine) :
    ((Event.set e m).1.poll).1 = true ∧
    (((Event.set e m).1.poll).2).flag = false ∧
    ((((Event.set e m).1.poll).2).poll) = (false, ((Event.set e m).1.poll).2) ∧
    Event.set ((Event.set e m).1) ((Event.set e m).2) = Event.set e m := by
  simp [Event.set, Event.poll]

/-- C9 counterexample: the source constructor accepts a region count of 1 —
no ConfigurationError is raised and a one-slot current-children vector is
produced — whereas the specification's validating constructor (stated beside
the source one) rejects it. -/
theorem concurrent_ctor_small_n_counterexample :
    mkConcurrentCompositeStateSpec "CC" 1 none false =
      Except.error Err.configurationError ∧
    (mkConcurrentCompositeState "CC" 1 none false).states =
      [⟨"CC_initial", SKind.initial, some true⟩] ∧
    (mkConcurrentCompositeState "CC" 1 none true).history =
      some ⟨⟨"CC_history", SKind.concHistory, some true⟩, [none]⟩ :=
  ⟨rfl, rfl, rfl⟩

/-- C9 amended: construction of a concurrent composite succeeds for every
region count N (no `N < 2` check exists in the code) and yields a vector of
N current children all initialised to the Initial pseudo-state, plus — when
`has_history` — a concurrent history node holding N empty slots. -/
theorem concurrent_ctor_any_n (name : String) (n : Nat) (sup : Option Bool)
    (hh : Bool) :
    (mkConcurrentCompositeState name n sup hh).states =
      List.replicate n (mkConcurrentCompositeState name n sup hh).initialS ∧
    (mkConcurrentCompositeState name n sup hh).states.length = n ∧
    (∀ s ∈ (mkConcurrentCompositeState name n sup hh).states,
        s.kind = SKind.initial) ∧
    (mkConcurrentCompositeState name n sup hh).history =
      (if hh then
        some ⟨⟨name ++ "_history", SKind.concHistory, some true⟩,
              List.replicate n none⟩
       else none) := by
  refine ⟨rfl, by simp [mkConcurrentCompositeState], ?_, rfl⟩
  intro s hs
  have := List.eq_of_mem_replicate (by simpa [mkConcurrentCompositeState] using hs)
  rw [this]

/-- C8 counterexample: a composite constructed with a transition table that
has no entry for its Initial pseudo-state raises no error — construction
succeeds and the transition evaluation at `Initial` is an error-free no-op —
whereas the specification's validating constructor (stated beside the source
one) rejects that table with ConfigurationError. -/
theorem composite_ctor_missing_initial_counterexample :
    mkCompositeStateSpec "C1" none false [] =
      Except.error Err.configurationError ∧
    (mkCompositeState "C1" none false).state =
      (mkCompositeState "C1" none false).initialS ∧
    Comp.transitionsStep (mkCompositeState "C1" none false) ⟨[], false⟩ [] =
      Except.ok (mkCompositeState "C1" none false, ⟨[], false⟩, []) :=
  ⟨rfl, rfl, rfl⟩

/-- C8 amended: the constructor performs no validation of the transition
table; a missing transition-table entry for the current state — any state,
including the Initial pseudo-state — makes the composite's transition
evaluation a no-op (no error is raised and no transition fires). -/
theorem composite_missing_entry_noop (c : Comp) (m : Machine) (tr : Trace)
    (h : lookupTable c.transitions c.state = none) :
    Comp.transitionsStep c m tr = Except.ok (c, m, tr) := by
  unfold Comp.transitionsStep
  rw [h]

/-- C8 amended, witness: the freshly constructed composite with an empty
table sits at `Initial` and its transition evaluation is a no-op. -/
theorem composite_missing_entry_noop_witness :
    Comp.transitionsStep (mkCompositeState "M" none false) ⟨[], true⟩ [] =
      Except.ok (mkCompositeState "M" none false, ⟨[], true⟩, []) :=
  composite_missing_entry_noop _ _ _ rfl

/-- Polling never changes the stored value of an `EventWithValue`. -/
lemma evw_poll_value (e : EventWithValue α) : (e.poll).2.value = e.value := by
  unfold EventWithValue.poll
  split <;> rfl

/-- The stored value of an `EventWithValue` is `none` after a run of
operations exactly when it was `none` before and no `set_value` occurred. -/
lemma runEvwOps_value_none (ops : List (EvwOp α)) (e : EventWithValue α) :
    (runEvwOps ops e).value = none ↔
      (e.value = none ∧ ∀ w, EvwOp.setValue w ∉ ops) := by
  induction ops generalizing e with
  | nil => simp [runEvwOps]
  | cons op rest ih =>
    have hstep : runEvwOps (op :: rest) e = runEvwOps rest (op.apply e) := rfl
    rw [hstep, ih]
    cases op with
    | poll =>
      simp only [EvwOp.apply, evw_poll_value, List.mem_cons, not_or]
      constructor
      · rintro ⟨h1, h2⟩; exact ⟨h1, fun w => ⟨by simp, h2 w⟩⟩
      · rintro ⟨h1, h2⟩; exact ⟨h1, fun w => (h2 w).2⟩
    | clear =>
      simp only [EvwOp.apply, EventWithValue.clear, List.mem_cons, not_or]
      constructor
      · rintro ⟨h1, h2⟩; exact ⟨h1, fun w => ⟨by simp, h2 w⟩⟩
      · rintro ⟨h1, h2⟩; exact ⟨h1, fun w => (h2 w).2⟩
    | setFlag =>
      simp only [EvwOp.apply, List.mem_cons, not_or]
      constructor
      · rintro ⟨h1, h2⟩; exact ⟨h1, fun w => ⟨by simp, h2 w⟩⟩
      · rintro ⟨h1, h2⟩; exact ⟨h1, fun w => (h2 w).2⟩
    | setValue v =>
      simp only [EvwOp.apply, List.mem_cons, not_or]
      constructor
      · rintro ⟨h1, -⟩; exact absurd h1 (by simp)
      · rintro ⟨-, hall⟩; exact absurd rfl (hall v).1

/-- C10: `set_value(v)` (with a value, necessarily non-None) stores `v` and
sets the flag; polling and clearing never change the stored value, so after
the flag is auto-consumed by a poll the `value` getter still returns the most
recently stored value; and the getter fails with its assertion exactly when
no value has ever been stored. -/
theorem evw_value_semantics (α : Type) (e : EventWithValue α) (v : α)
    (m : Machine) (ops : List (EvwOp α)) :
    ((e.setValue v m).1.value = some v ∧ (e.setValue v m).1.flag = true) ∧
    ((e.poll).2.value = e.value ∧ (e.clear).value = e.value) ∧
    (((e.setValue v m).1.poll).2.getValue = Except.ok v) ∧
    ((runEvwOps ops (EventWithValue.init α)).getValue =
        Except.error Err.assertionFailed ↔ ∀ w, EvwOp.setValue w ∉ ops) := by
  refine ⟨⟨rfl, rfl⟩, ⟨evw_poll_value e, rfl⟩, ?_, ?_⟩
  · have hval : (((e.setValue v m).1.poll).2).value = some v := by
      rw [evw_poll_value]; rfl
    simp [EventWithValue.getValue, hval]
  · have hgv : ∀ ex : EventWithValue α,
        (EventWithValue.getValue ex = Except.error Err.assertionFailed ↔
          ex.value = none) := by
      intro ex
      cases hv : ex.value <;> simp [EventWithValue.getValue, hv]
    rw [hgv, runEvwOps_value_none]
    simp [EventWithValue.init]

/-- C6: for every non-pseudo state with a super state, `exit()` fails with
the stack-invariant violation exactly when the state is not at the position
it should occupy — not the single state at the stack top when its parent is
not a concurrent composite, or absent from the required top set-frame when
its parent is one — and otherwise runs the exit actions and removes the
state from the stack without error. -/
theorem exit_stack_position (s : StateD) (stk : Stack) (tr : Trace)
    (hnp : isPseudo s = false) :
    (s.superState = some false →
      (∀ rest, stk = StackElem.single s :: rest →
        s.exit stk tr = Except.ok (rest, tr ++ [Ev.exitA s.name])) ∧
      ((∀ rest, stk ≠ StackElem.single s :: rest) →
        s.exit stk tr = Except.error Err.stackInvariantViolated)) ∧
    (s.superState = some true →
      (∀ ss rest, stk = StackElem.frame ss :: rest → s ∈ ss →
        s.exit stk tr =
          Except.ok
            ((if (ss.erase s).isEmpty then rest
              else StackElem.frame (ss.erase s) :: rest),
             tr ++ [Ev.exitA s.name])) ∧
      (∀ ss rest, stk = StackElem.frame ss :: rest → s ∉ ss →
        s.exit stk tr = Except.error Err.stackInvariantViolated) ∧
      ((∀ ss rest, stk ≠ StackElem.frame ss :: rest) →
        s.exit stk tr = Except.error Err.stackInvariantViolated)) := by
  constructor
  · intro hsup
    constructor
    · rintro rest rfl
      simp [StateD.exit, hnp, hsup]
    · intro hne
      match stk with
      | [] => simp [StateD.exit, hnp, hsup]
      | StackElem.frame ss :: rest => simp [StateD.exit, hnp, hsup]
      | StackElem.single t :: rest =>
        have ht : ¬(t = s) := fun h => hne rest (by rw [h])
        simp [StateD.exit, hnp, hsup, ht]
  · intro hsup
    refine ⟨?_, ?_, ?_⟩
    · rintro ss rest rfl hmem
      simp [StateD.exit, hnp, hsup, hmem]
    · rintro ss rest rfl hmem
      simp [StateD.exit, hnp, hsup, hmem]
    · intro hne
      match stk with
      | [] => simp [StateD.exit, hnp, hsup]
      | StackElem.single t :: rest => simp [StateD.exit, hnp, hsup]
      | StackElem.frame ss :: rest => exact absurd rfl (hne ss rest)

/-- C6 witness: a simple state at the stack top exits without error, popping
itself; the same state exits a frame it belongs to when its parent is a
concurrent composite. -/
theorem exit_stack_position_witness :
    isPseudo sA = false ∧
    StateD.exit sA [StackElem.single sA] [] = Except.ok ([], [Ev.exitA "A"]) :=
  ⟨rfl, ((exit_stack_position sA [StackElem.single sA] [] rfl).1 rfl).1 [] rfl⟩

/-- Every successful `State.exit` extends the trace by exactly the exit-hook
trace of the exited state. -/
lemma exit_ok_trace (s : StateD) (stk : Stack) (tr : Trace) (stk1 : Stack)
    (tr1 : Trace) (h : s.exit stk tr = Except.ok (stk1, tr1)) :
    tr1 = tr ++ exitTr s := by
  unfold StateD.exit at h
  by_cases hp : isPseudo s
  · rw [if_pos hp] at h
    cases h
    simp [exitTr, hp]
  · rw [if_neg hp] at h
    rw [exitTr, if_neg hp]
    split at h
    · cases h
    · split at h
      · split at h
        · cases h; rfl
        · cases h
      · cases h
    · split at h
      · split at h
        · cases h; rfl
        · cases h
      · cases h

/-- Every successful `State.exit` only removes states from the stack: every
state on the resulting stack was already on the input stack. -/
lemma exit_ok_stack_subset (s : StateD) (stk : Stack) (tr : Trace)
    (stk1 : Stack) (tr1 : Trace) (h : s.exit stk tr = Except.ok (stk1, tr1)) :
    ∀ x ∈ stackStates stk1, x ∈ stackStates stk := by
  unfold StateD.exit at h
  by_cases hp : isPseudo s
  · rw [if_pos hp] at h
    cases h
    exact fun x hx => hx
  · rw [if_neg hp] at h
    split at h
    · cases h
    · split at h
      · rename_i ss rest
        split at h
        · cases h
          intro x hx
          split at hx
          · exact List.mem_append_right _ hx
          · rcases List.mem_append.mp (by simpa [stackStates] using hx) with hl | hr
            · exact List.mem_append_left _ (List.erase_subset _ _ hl)
            · exact List.mem_append_right _ hr
        · cases h
      · cases h
    · split at h
      · rename_i t rest
        split at h
        · cases h
          intro x hx
          exact List.mem_cons_of_mem _ hx
        · cases h
      · cases h

/-- Concurrent activation always places the activated state on the stack. -/
lemma activateConcurrentState_mem (t : StateD) (stk stk1 : Stack)
    (h : activateConcurrentState t stk = Except.ok stk1) :
    t ∈ stackStates stk1 := by
  unfold activateConcurrentState at h
  match stk with
  | [] => cases h
  | StackElem.frame ss :: rest =>
    cases h
    show t ∈ insertS t ss ++ stackStates rest
    refine List.mem_append_left _ ?_
    unfold insertS
    split
    · assumption
    · exact List.mem_cons_self t ss
  | StackElem.single u :: rest =>
    cases h
    exact List.mem_cons_self t _

/-- Decomposition of a successful `State.transition` into its four phases:
the exit of the source, the transition actions, the entry of the target, and
the activation of the target. -/
lemma transition_ok_parts (s target : StateD) (actions : List String)
    (stk : Stack) (tr : Trace) (res : StateD) (stk1 : Stack) (tr1 : Trace)
    (h : transition s target actions stk tr = Except.ok (res, stk1, tr1)) :
    res = target ∧
    ∃ stkMid, s.exit stk tr = Except.ok (stkMid, tr ++ exitTr s) ∧
      tr1 = tr ++ exitTr s ++ actions.map Ev.act ++ entryTr target ∧
      activateStep s target stkMid = Except.ok stk1 := by
  unfold transition at h
  cases hex : s.exit stk tr with
  | error e =>
    rw [hex] at h
    simp only [Bind.bind, Except.bind] at h
    cases h
  | ok p =>
    obtain ⟨stkMid, trMid⟩ := p
    have htr : trMid = tr ++ exitTr s := exit_ok_trace _ _ _ _ _ hex
    subst htr
    rw [hex] at h
    simp only [Bind.bind, Except.bind] at h
    cases hac : activateStep s target stkMid with
    | error e =>
      rw [hac] at h
      simp only [Except.bind] at h
      cases h
    | ok stk2 =>
      rw [hac] at h
      simp only [Except.bind, Except.ok.injEq, Prod.mk.injEq] at h
      obtain ⟨hres, hstk, htr1⟩ := h
      subst hres hstk htr1
      exact ⟨rfl, stkMid, rfl, by simp [List.append_assoc], hac⟩

/-- C1: every successful `transition(new_state, *actions)` call runs its
phases in strict order — first the source state's exit (its exit-action
trace and removal from the stack), then the supplied transition actions in
the order given, then the target's entry actions when the target is not a
pseudo-state — and finally activates the target unless it is `Final`:
pushed as a single state, or routed through concurrent set-frame insertion
when the source's super state is a concurrent composite; the returned state
is the target. -/
theorem transition_phase_order (s target : StateD) (actions : List String)
    (stk : Stack) (tr : Trace) (res : StateD) (stk1 : Stack) (tr1 : Trace)
    (h : transition s target actions stk tr = Except.ok (res, stk1, tr1)) :
    res = target ∧
    ∃ stkMid, s.exit stk tr = Except.ok (stkMid, tr ++ exitTr s) ∧
      tr1 = tr ++ exitTr s ++ actions.map Ev.act ++ entryTr target ∧
      (target.kind = SKind.final → stk1 = stkMid) ∧
      (target.kind ≠ SKind.final → s.superState ≠ some true →
        stk1 = StackElem.single target :: stkMid) ∧
      (target.kind ≠ SKind.final → s.superState = some true →
        activateConcurrentState target stkMid = Except.ok stk1) := by
  obtain ⟨hres, stkMid, hex, htr, hac⟩ := transition_ok_parts _ _ _ _ _ _ _ _ h
  refine ⟨hres, stkMid, hex, htr, ?_, ?_, ?_⟩
  · intro hfin
    rw [activateStep, if_pos hfin] at hac
    cases hac
    rfl
  · intro hnfin hnsup
    rw [activateStep, if_neg hnfin, if_neg hnsup] at hac
    cases hac
    rfl
  · intro hnfin hsup
    rw [activateStep, if_neg hnfin, if_pos hsup] at hac
    exact hac

/-- C1 witness: a concrete two-state transition with one transition action
decomposes into exit of the source, the action, entry of the target, and the
push of the target. -/
theorem transition_phase_order_witness :
    sB = sB ∧
    ∃ stkMid,
      StateD.exit sA [StackElem.single sA] [] =
        Except.ok (stkMid, [] ++ exitTr sA) ∧
      ([Ev.exitA "A", Ev.act "t1", Ev.entryA "B"] : Trace) =
        [] ++ exitTr sA ++ (["t1"].map Ev.act) ++ entryTr sB ∧
      (sB.kind = SKind.final → [StackElem.single sB] = stkMid) ∧
      (sB.kind ≠ SKind.final → sA.superState ≠ some true →
        [StackElem.single sB] = StackElem.single sB :: stkMid) ∧
      (sB.kind ≠ SKind.final → sA.superState = some true →
        activateConcurrentState sB stkMid = Except.ok [StackElem.single sB]) :=
  transition_phase_order sA sB ["t1"] [StackElem.single sA] []
    sB [StackElem.single sB] [Ev.exitA "A", Ev.act "t1", Ev.entryA "B"] rfl

/-- C2: after a successful plain-composite `_transition_to(target, *actions)`
the composite's current-child pointer equals the target, and — when the tick
event was not already pending — the machine's tick event ends up signalled
exactly when the target is the composite's `Final` pseudo-state.  The
hypothesis `hfin` is the construction invariant that among the states a
composite can transition to, only its own `_final` is a `_FinalState`
instance. -/
theorem composite_transitionTo_post (c : Comp) (target : StateD)
    (actions : List String) (m : Machine) (tr : Trace) (c1 : Comp)
    (m1 : Machine) (tr1 : Trace)
    (hfin : target.kind = SKind.final ↔ target = c.finalS)
    (htick : m.tick = false)
    (h : c.transitionTo target actions m tr = Except.ok (c1, m1, tr1)) :
    c1.state = target ∧ (m1.tick = true ↔ target = c.finalS) := by
  unfold Comp.transitionTo at h
  cases hex : transition c.state target actions m.activeStates tr with
  | error e =>
    rw [hex] at h
    simp only [Bind.bind, Except.bind] at h
    cases h
  | ok p =>
    obtain ⟨res, stk, trx⟩ := p
    have hres : res = target :=
      (transition_ok_parts _ _ _ _ _ _ _ _ hex).1
    subst hres
    rw [hex] at h
    simp only [Bind.bind, Except.bind] at h
    by_cases hf : res.kind = SKind.final
    · rw [if_pos hf] at h
      simp only [Except.ok.injEq, Prod.mk.injEq] at h
      obtain ⟨hc, hm, -⟩ := h
      subst hc hm
      exact ⟨rfl, by simpa using hfin.mp hf⟩
    · rw [if_neg hf] at h
      simp only [Except.ok.injEq, Prod.mk.injEq] at h
      obtain ⟨hc, hm, -⟩ := h
      subst hc hm
      refine ⟨rfl, ?_⟩
      rw [htick]
      simp only [false_iff, Bool.false_eq_true]
      exact fun heq => hf (hfin.mpr heq)

/-- C2 witness: transitioning the example composite from its child `A` to
its own `Final` pseudo-state updates the current child and signals the tick
event. -/
theorem composite_transitionTo_post_witness :
    ({ mkCompositeState "C1" (some false) false with
        state := ⟨"C1_final", SKind.final, some false⟩ } : Comp).state =
      (⟨"C1_final", SKind.final, some false⟩ : StateD) ∧
    ((⟨[], true⟩ : Machine).tick = true ↔
      (⟨"C1_final", SKind.final, some false⟩ : StateD) =
        ({ mkCompositeState "C1" (some false) false with state := sA } : Comp).finalS) :=
  composite_transitionTo_post
    { mkCompositeState "C1" (some false) false with state := sA }
    ⟨"C1_final", SKind.final, some false⟩ [] ⟨[StackElem.single sA], false⟩ []
    { mkCompositeState "C1" (some false) false with
        state := ⟨"C1_final", SKind.final, some false⟩ }
    ⟨[], true⟩ [Ev.exitA "A"]
    (Iff.intro (fun _ => rfl) (fun _ => rfl))
    rfl rfl

/-- C7 counterexample: a transition that targets an Initial pseudo-state
leaves that pseudo-state on the active-state stack — contradicting the claim
that a pseudo-state is never pushed onto the stack regardless of which state
a transition targets. -/
theorem pseudo_pushed_counterexample :
    transition sA pInit [] [StackElem.single sA] [] =
      Except.ok (pInit, [StackElem.single pInit], [Ev.exitA "A"]) ∧
    isPseudo pInit = true ∧
    pInit ∈ stackStates [StackElem.single pInit] := by
  refine ⟨rfl, rfl, ?_⟩
  show pInit ∈ pInit :: stackStates []
  exact List.mem_cons_self _ _

/-- C7 amended: pseudo-states never run their entry or exit hooks — a
transition whose target is a pseudo-state emits no entry trace for it, and a
pseudo source emits no exit trace — and a `Final` target is never pushed
onto the stack (the stack only shrinks); but a transition that directly
targets an Initial or history pseudo-state does push it onto the stack. -/
theorem pseudo_hooks_and_stack (s target : StateD) (actions : List String)
    (stk : Stack) (tr : Trace) (res : StateD) (stk1 : Stack) (tr1 : Trace)
    (hps : isPseudo target = true)
    (h : transition s target actions stk tr = Except.ok (res, stk1, tr1)) :
    tr1 = tr ++ exitTr s ++ actions.map Ev.act ∧
    (isPseudo s = true → tr1 = tr ++ actions.map Ev.act) ∧
    (target.kind = SKind.final → ∀ x ∈ stackStates stk1, x ∈ stackStates stk) ∧
    (target.kind ≠ SKind.final → target ∈ stackStates stk1) := by
  obtain ⟨hres, stkMid, hex, htr, hac⟩ := transition_ok_parts _ _ _ _ _ _ _ _ h
  have hentry : entryTr target = [] := by
    unfold entryTr
    rw [if_pos hps]
  rw [hentry, List.append_nil] at htr
  refine ⟨htr, ?_, ?_, ?_⟩
  · intro hpss
    rw [htr]
    unfold exitTr
    rw [if_pos hpss, List.append_nil]
  · intro hfin
    rw [activateStep, if_pos hfin] at hac
    cases hac
    exact exit_ok_stack_subset _ _ _ _ _ hex
  · intro hnfin
    rw [activateStep, if_neg hnfin] at hac
    by_cases hsup : s.superState = some true
    · rw [if_pos hsup] at hac
      exact activateConcurrentState_mem _ _ _ hac
    · rw [if_neg hsup] at hac
      cases hac
      exact List.mem_cons_self _ _

/-- C7 amended, witness: transitioning from a simple state to an Initial
pseudo-state emits only the source's exit trace, and the pseudo target ends
up on the stack. -/
theorem pseudo_hooks_and_stack_witness :
    ([Ev.exitA "A"] : Trace) = [] ++ exitTr sA ++ ([].map Ev.act) ∧
    (isPseudo sA = true → ([Ev.exitA "A"] : Trace) = [] ++ ([].map Ev.act)) ∧
    (pInit.kind = SKind.final →
      ∀ x ∈ stackStates [StackElem.single pInit],
        x ∈ stackStates [StackElem.single sA]) ∧
    (pInit.kind ≠ SKind.final →
      pInit ∈ stackStates [StackElem.single pInit]) :=
  pseudo_hooks_and_stack sA pInit [] [StackElem.single sA] []
    pInit [StackElem.single pInit] [Ev.exitA "A"] rfl rfl

/-- Decomposition of a successful plain-composite `_transition_to`: only the
current-child pointer changes on the composite, and the trace decomposes
into exit, actions, and entry phases. -/
lemma transitionTo_ok_parts (c : Comp) (target : StateD)
    (actions : List String) (m : Machine) (tr : Trace) (c1 : Comp)
    (m1 : Machine) (tr1 : Trace)
    (h : c.transitionTo target actions m tr = Except.ok (c1, m1, tr1)) :
    c1.state = target ∧ c1.history = c.history ∧
    c1.transitions = c.transitions ∧ c1.initialS = c.initialS ∧
    c1.finalS = c.finalS ∧ c1.selfS = c.selfS ∧
    ∃ stkMid,
      c.state.exit m.activeStates tr = Except.ok (stkMid, tr ++ exitTr c.state) ∧
      tr1 = tr ++ exitTr c.state ++ actions.map Ev.act ++ entryTr target := by
  unfold Comp.transitionTo at h
  cases hex : transition c.state target actions m.activeStates tr with
  | error e =>
    rw [hex] at h
    simp only [Bind.bind, Except.bind] at h
    cases h
  | ok p =>
    obtain ⟨res, stk, trx⟩ := p
    obtain ⟨hres, stkMid, hexit, htr, -⟩ := transition_ok_parts _ _ _ _ _ _ _ _ hex
    rw [hex] at h
    simp only [Bind.bind, Except.bind] at h
    rw [hres] at h
    by_cases hf : target.kind = SKind.final
    · rw [if_pos hf] at h
      simp only [Except.ok.injEq, Prod.mk.injEq] at h
      obtain ⟨hc, -, htr1⟩ := h
      subst hc htr1
      exact ⟨rfl, rfl, rfl, rfl, rfl, rfl, stkMid, hexit, htr⟩
    · rw [if_neg hf] at h
      simp only [Except.ok.injEq, Prod.mk.injEq] at h
      obtain ⟨hc, -, htr1⟩ := h
      subst hc htr1
      exact ⟨rfl, rfl, rfl, rfl, rfl, rfl, stkMid, hexit, htr⟩

/-- C3: for every plain composite with history — exiting while the current
child is not `Final` stores that child as the history's return state and
makes the history pseudo-state current; `_handle_history` fails its
assertion when no state is remembered, and otherwise transitions into
exactly the remembered child (emitting no entry trace for the history node
itself, only the target's entry) and clears the remembered value; exiting
while the current child is `Final` instead resets the current child to
`Initial`. -/
theorem composite_history_bookkeeping (c : Comp) (hs : HistoryState)
    (m : Machine) (tr : Trace) (hh : c.history = some hs) :
    (∀ c1 m1 tr1, c.state ≠ c.finalS →
        Comp.exit c m tr = Except.ok (c1, m1, tr1) →
        c1.history = some ⟨hs.node, some c.state⟩ ∧ c1.state = hs.node) ∧
    (hs.stateToReturnTo = none →
        Comp.handleHistory c m tr = Except.error Err.assertionFailed) ∧
    (∀ target c1 m1 tr1, hs.stateToReturnTo = some target →
        Comp.handleHistory c m tr = Except.ok (c1, m1, tr1) →
        c1.state = target ∧ c1.history = some ⟨hs.node, none⟩ ∧
        (c.state = hs.node → isPseudo hs.node = true →
          tr1 = tr ++ entryTr target)) ∧
    (∀ c1 m1 tr1, c.state = c.finalS →
        Comp.exit c m tr = Except.ok (c1, m1, tr1) →
        c1.state = c.initialS) := by
  refine ⟨?_, ?_, ?_, ?_⟩
  · intro c1 m1 tr1 hne h
    unfold Comp.exit at h
    cases hex : c.state.exit m.activeStates tr with
    | error e =>
      rw [hex] at h
      simp only [Bind.bind, Except.bind] at h
      cases h
    | ok p =>
      obtain ⟨stk1, trx⟩ := p
      rw [hex] at h
      simp only [Bind.bind, Except.bind, hh] at h
      rw [if_pos hne] at h
      cases hfin : c.selfS.exit stk1 trx with
      | error e =>
        rw [hfin] at h
        simp only [Except.bind] at h
        cases h
      | ok q =>
        obtain ⟨stk2, tr2⟩ := q
        rw [hfin] at h
        simp only [Except.bind, Except.ok.injEq, Prod.mk.injEq] at h
        obtain ⟨hc, -, -⟩ := h
        subst hc
        exact ⟨rfl, rfl⟩
  · intro hnone
    unfold Comp.handleHistory
    simp only [hh, hnone]
  · intro target c1 m1 tr1 hst h
    unfold Comp.handleHistory at h
    simp only [hh, hst] at h
    cases hto : c.transitionTo target [] m tr with
    | error e =>
      rw [hto] at h
      simp only [Bind.bind, Except.bind] at h
      cases h
    | ok p =>
      obtain ⟨cmid, mmid, trmid⟩ := p
      obtain ⟨hstate, -, -, -, -, -, -, -, htrm⟩ :=
        transitionTo_ok_parts _ _ _ _ _ _ _ _ hto
      rw [hto] at h
      simp only [Bind.bind, Except.bind, Except.ok.injEq, Prod.mk.injEq] at h
      obtain ⟨hc, -, htr1⟩ := h
      subst hc htr1
      refine ⟨hstate, rfl, ?_⟩
      intro hcur hps
      rw [htrm, hcur]
      unfold exitTr
      rw [if_pos hps]
      simp
  · intro c1 m1 tr1 hfin h
    unfold Comp.exit at h
    cases hex : c.state.exit m.activeStates tr with
    | error e =>
      rw [hex] at h
      simp only [Bind.bind, Except.bind] at h
      cases h
    | ok p =>
      obtain ⟨stk1, trx⟩ := p
      rw [hex] at h
      simp only [Bind.bind, Except.bind, hh] at h
      rw [if_neg (not_not_intro hfin)] at h
      cases hfe : c.selfS.exit stk1 trx with
      | error e =>
        rw [hfe] at h
        simp only [Except.bind] at h
        cases h
      | ok q =>
        obtain ⟨stk2, tr2⟩ := q
        rw [hfe] at h
        simp only [Except.bind, Except.ok.injEq, Prod.mk.injEq] at h
        obtain ⟨hc, -, -⟩ := h
        subst hc
        rfl

/-- C3 witness: exiting the example composite (history present, current
child `X`, not `Final`) stores `X` as the history return state and makes the
history node current. -/
theorem composite_history_bookkeeping_witness :
    ({ cHistEx with
        history := some ⟨⟨"C2_history", SKind.history, some false⟩, some sX⟩,
        state := ⟨"C2_history", SKind.history, some false⟩ } : Comp).history =
      some ⟨⟨"C2_history", SKind.history, some false⟩, some sX⟩ ∧
    ({ cHistEx with
        history := some ⟨⟨"C2_history", SKind.history, some false⟩, some sX⟩,
        state := ⟨"C2_history", SKind.history, some false⟩ } : Comp).state =
      (⟨"C2_history", SKind.history, some false⟩ : StateD) :=
  (composite_history_bookkeeping cHistEx
      ⟨⟨"C2_history", SKind.history, some false⟩, none⟩
      ⟨[StackElem.single sX,
        StackElem.single ⟨"C2", SKind.composite, some false⟩], false⟩ [] rfl).1
    { cHistEx with
        history := some ⟨⟨"C2_history", SKind.history, some false⟩, some sX⟩,
        state := ⟨"C2_history", SKind.history, some false⟩ }
    ⟨[], false⟩ [Ev.exitA "X", Ev.exitA "C2"]
    (by decide) rfl

end Yasmi
